import Mathlib

/-!
Shallow embedding of the `summarize_doc` client components:
`DocumentUploader.tsx`, `ResultsDashboard.tsx` and the `DocumentSummary`
component, together with theorems settling the specification claims.

Conventions of the embedding:
* A browser `File` becomes `RawFile` (name and size in bytes).
* The uploader `FileWithPreview` entries become `FileEntry`; the random
  id generated by `Date.now()`/`Math.random()` is passed in as a parameter.
* Upload progress is a rational number; `Math.random() * 10` becomes an
  arbitrary tick increment `d` with `0 ≤ d` (and `d < 10`, unused).
* React state updates become explicit state passing: `processFiles` maps an
  `UploaderState` and an offered batch to a new `UploaderState`, and each
  `setInterval` tick of `simulateUpload` becomes one step of `uploadRun` /
  `applyTick`.
-/

namespace SummarizeDoc

/-- The `status` union of `FileWithPreview`: `"uploading" | "success" | "error"`. -/
inductive Status where
  | uploading
  | success
  | error
deriving DecidableEq, Repr

/-- A browser `File` as far as validation sees it: its `name` and `size` in bytes. -/
structure RawFile where
  name : String
  size : Nat
deriving DecidableEq, Repr

/-- The uploader `FileWithPreview` record: the underlying file plus
`id`, `progress` and `status`. -/
structure FileEntry where
  id : String
  name : String
  size : Nat
  progress : ℚ
  status : Status
deriving DecidableEq, Repr

/-- The props of `DocumentUploader` that validation depends on
(`maxFiles`, `maxSizeMB`, `allowedFileTypes`). -/
structure UploaderConfig where
  maxFiles : Nat
  maxSizeMB : Nat
  allowedFileTypes : List String
deriving DecidableEq, Repr

/-- The default prop values: `maxFiles = 10`, `maxSizeMB = 10`,
`allowedFileTypes = [".pdf", ".docx", ".doc"]`. -/
def defaultConfig : UploaderConfig :=
  { maxFiles := 10, maxSizeMB := 10, allowedFileTypes := [".pdf", ".docx", ".doc"] }

/-- The constant `maxSizeBytes = maxSizeMB * 1024 * 1024`. -/
def maxSizeBytes (c : UploaderConfig) : Nat :=
  c.maxSizeMB * 1024 * 1024

/-- JavaScript `name.split(".")` specialised to the separator `"."`:
splits a character list at every `'.'`, keeping empty groups, and never
returns an empty list of groups. -/
def splitOnDot : List Char → List (List Char)
  | [] => [[]]
  | ch :: cs =>
    if ch = '.' then
      [] :: splitOnDot cs
    else
      match splitOnDot cs with
      | [] => [[ch]]
      | g :: gs => (ch :: g) :: gs

/-- The extension string the uploader computes:
``` `.${file.name.split(".").pop()?.toLowerCase()}` ```. -/
def fileExtension (name : String) : String :=
  "." ++ String.mk (((splitOnDot name.toList).getLastD []).map Char.toLower)

/-- Result of `validateFile`: `{ valid: true }` or `{ valid: false, error }`. -/
inductive Validation where
  | ok
  | err (msg : String)
deriving DecidableEq, Repr

/-- The uploader `validateFile`, checked against the `files` list length
the component state held when the enclosing `processFiles` call started:
size check first, then extension allow-list, then file count. -/
def validateFile (c : UploaderConfig) (filesLen : Nat) (f : RawFile) : Validation :=
  if maxSizeBytes c < f.size then
    .err ("File size exceeds " ++ toString c.maxSizeMB ++ "MB limit")
  else if ¬ (fileExtension f.name ∈ c.allowedFileTypes) then
    .err ("File type not supported. Allowed types: " ++
      String.intercalate ", " c.allowedFileTypes)
  else if c.maxFiles ≤ filesLen then
    .err ("Maximum " ++ toString c.maxFiles ++ " files allowed")
  else
    .ok

/-- The component state of `DocumentUploader` the claims are about:
the `files` list and the `error` banner. -/
structure UploaderState where
  files : List FileEntry
  error : Option String
deriving DecidableEq, Repr

/-- The `newFiles` array built by the `forEach` loop of `processFiles`:
each offered file that passes `validateFile` (against the pre-call list
length) enters with `progress = 0` and `status = "uploading"`.  The batch
pairs each offered file with the id `processFiles` generates for it. -/
def batchAccepted (c : UploaderConfig) (filesLen : Nat)
    (batch : List (String × RawFile)) : List FileEntry :=
  batch.filterMap fun p =>
    match validateFile c filesLen p.2 with
    | .ok => some { id := p.1, name := p.2.name, size := p.2.size,
                    progress := 0, status := .uploading }
    | .err _ => none

/-- The `error` state after `processFiles`: `setError(null)` first, then
`setError(validation.error)` for each invalid file, so the last invalid
file message wins (or `none` when every file was valid). -/
def batchError (c : UploaderConfig) (filesLen : Nat)
    (batch : List (String × RawFile)) : Option String :=
  batch.foldl (fun acc p =>
    match validateFile c filesLen p.2 with
    | .ok => acc
    | .err m => some m) none

/-- The function `processFiles`: validates every offered file against the list length at
the start of the call, appends the accepted ones, and records the last
validation error. -/
def processFiles (c : UploaderConfig) (s : UploaderState)
    (batch : List (String × RawFile)) : UploaderState :=
  { files := s.files ++ batchAccepted c s.files.length batch,
    error := batchError c s.files.length batch }

/-- The function `removeFile`: `setFiles(prev => prev.filter(file => file.id !== id))`. -/
def removeFile (s : UploaderState) (id : String) : UploaderState :=
  { s with files := s.files.filter fun f => f.id ≠ id }

/-- One `setInterval` tick of `simulateUpload` as seen by the local
`progress` variable: its new value, and whether the `progress >= 100`
branch ran (which clears the interval and marks success). -/
structure TickResult where
  progress : ℚ
  completed : Bool
deriving DecidableEq, Repr

/-- The tick body `progress += Math.random() * 10; if (progress >= 100) { progress = 100; ... }`. -/
def uploadTick (p d : ℚ) : TickResult :=
  if 100 ≤ p + d then
    { progress := 100, completed := true }
  else
    { progress := p + d, completed := false }

/-- The sequence of ticks `simulateUpload` performs from local progress `p`
with the given random increments; the run stops at the first completed
tick (`clearInterval`). -/
def uploadRun : ℚ → List ℚ → List TickResult
  | _, [] => []
  | p, d :: ds =>
    if (uploadTick p d).completed then [uploadTick p d]
    else uploadTick p d :: uploadRun (uploadTick p d).progress ds

/-- The per-entry update a tick applies inside `setFiles(prev => prev.map(...))`:
the entry whose id matches gets the tick progress (and, on completion,
status `"success"`); every other entry is returned unchanged. -/
def tickEntry (fileId : String) (t : TickResult) (f : FileEntry) : FileEntry :=
  if f.id = fileId then
    if t.completed then
      { f with progress := t.progress, status := .success }
    else
      { f with progress := t.progress }
  else
    f

/-- One tick `setFiles` update over the whole list. -/
def applyTick (fileId : String) (t : TickResult) (files : List FileEntry) :
    List FileEntry :=
  files.map (tickEntry fileId t)

/-- A whole `simulateUpload` run for `fileId` applied to the files list:
every tick `setFiles` update in order. -/
def runTicks (fileId : String) (p : ℚ) (deltas : List ℚ)
    (files : List FileEntry) : List FileEntry :=
  (uploadRun p deltas).foldl (fun fs t => applyTick fileId t fs) files

/-- The `disabled` expression of the Summarize button:
`isProcessing || files.some(f => f.status === "uploading") ||
 files.filter(f => f.status === "success").length === 0`. -/
def summarizeDisabled (isProcessing : Bool) (files : List FileEntry) : Bool :=
  isProcessing ||
    files.any (fun f => f.status == Status.uploading) ||
    decide ((files.filter fun f => f.status == Status.success).length = 0)

/-- The Summarize button `onClick`: when the button is enabled, filter the
successfully uploaded files and call `onSummarize` with them when that
list is non-empty.  `some payload` means `onSummarize(payload)` fired. -/
def summarizeClick (isProcessing : Bool) (files : List FileEntry) :
    Option (List FileEntry) :=
  if summarizeDisabled isProcessing files then
    none
  else
    let successfulFiles := files.filter fun f => f.status == Status.success
    if 0 < successfulFiles.length then some successfulFiles else none

/-- The importance union of a highlight: `"high" | "medium" | "low"`. -/
inductive Importance where
  | high
  | medium
  | low
deriving DecidableEq, Repr

/-- A highlight: `{ text: string; importance: "high" | "medium" | "low" }`. -/
structure Highlight where
  text : String
  importance : Importance
deriving DecidableEq, Repr

/-- The function `getHighlightColor` from `DocumentSummary`: the switch over importance
(the `default` arm `"bg-gray-100"` is unreachable for the union type). -/
def getHighlightColor : Importance → String
  | .high => "bg-red-100 border-l-4 border-red-500"
  | .medium => "bg-yellow-100 border-l-4 border-yellow-500"
  | .low => "bg-blue-100 border-l-4 border-blue-500"

/-- An entity record of the document metadata: `{ name: string; type: string }`. -/
structure Entity where
  name : String
  type : String
deriving DecidableEq, Repr

/-- The `metadata` record: tags, key insights and entities. -/
structure DocMetadata where
  tags : List String
  keyInsights : List String
  entities : List Entity
deriving DecidableEq, Repr

/-- The `Document` interface of `ResultsDashboard`; `title?` is optional
there, every other field is required. -/
structure Document where
  id : String
  title : Option String
  originalFileName : String
  summary : String
  fullText : String
  metadata : DocMetadata
  highlights : List Highlight
  processedDate : String
deriving DecidableEq, Repr

/-- The first hard-coded sample document of `ResultsDashboard`. -/
def sampleDocument1 : Document :=
  { id := "1"
    title := some "Sample Document"
    originalFileName := "Sample Document.pdf"
    summary := "This is a sample document summary that highlights the key points from the document. It provides a concise overview of the main topics covered."
    fullText := "Lorem ipsum dolor sit amet, consectetur adipiscing elit. Nullam euismod, nisl eget aliquam ultricies, nunc nisl aliquet nunc, vitae aliquam nisl nunc vitae nisl. Nullam euismod, nisl eget aliquam ultricies, nunc nisl aliquet nunc, vitae aliquam nisl nunc vitae nisl."
    metadata :=
      { tags := ["Contract", "Legal", "Agreement"]
        keyInsights :=
          ["Payment terms defined in section 3.2",
           "Termination clause on page 5",
           "Non-compete for 24 months"]
        entities :=
          [{ name := "Acme Corp", type := "Organization" },
           { name := "John Doe", type := "Person" },
           { name := "Jane Smith", type := "Person" }] }
    highlights :=
      [{ text := "Payment must be made within 30 days of invoice receipt",
         importance := .high },
       { text := "Either party may terminate with 60 days written notice",
         importance := .medium },
       { text := "All disputes shall be resolved through arbitration",
         importance := .low }]
    processedDate := "2023-06-15T14:30:00Z" }

/-- The second hard-coded sample document of `ResultsDashboard`. -/
def sampleDocument2 : Document :=
  { id := "2"
    title := some "Business Proposal"
    originalFileName := "Business Proposal.docx"
    summary := "A business proposal for expanding operations into the European market, with financial projections and implementation timeline."
    fullText := "Detailed business proposal text would appear here with multiple paragraphs of content..."
    metadata :=
      { tags := ["Business", "Proposal", "Expansion"]
        keyInsights :=
          ["â‚¬2.5M initial investment",
           "18-month timeline",
           "Focus on Germany and France"]
        entities :=
          [{ name := "Global Enterprises", type := "Organization" },
           { name := "European Union", type := "Organization" },
           { name := "Frankfurt Office", type := "Location" }] }
    highlights :=
      [{ text := "Projected ROI of 22% within first 24 months",
         importance := .high },
       { text := "Hiring of 15 local staff required in Q1",
         importance := .medium },
       { text := "Regulatory approval expected by Q3",
         importance := .medium }]
    processedDate := "2023-06-10T09:15:00Z" }

/-- The default value of the `documents` prop of `ResultsDashboard`. -/
def defaultDocuments : List Document :=
  [sampleDocument1, sampleDocument2]

/-- Initialisation of `ResultsDashboard`: the document list it operates on
(the prop, or the hard-coded samples when the prop is omitted) and the
initial `activeDocument` state, `documents[0]?.id || ""`. -/
def resultsDashboardInit (documents : Option (List Document)) :
    List Document × String :=
  let docs := documents.getD defaultDocuments
  (docs, ((docs.head?.map fun d => d.id).getD ""))

/-- The dashboard displayed heading,
`currentDocument.title || currentDocument.originalFileName`
(a missing or empty title falls back to the file name). -/
def displayTitle (d : Document) : String :=
  match d.title with
  | some t => if t = "" then d.originalFileName else t
  | none => d.originalFileName

/-- Spec reading of the extension: the text after the file name last dot
(the whole name when it has no dot), written directly as a recursion on the
characters rather than through `split`/`pop`. -/
def afterLastDot : List Char → List Char
  | [] => []
  | ch :: cs =>
    if '.' ∈ cs then afterLastDot cs
    else if ch = '.' then cs
    else ch :: cs

/-- Spec reading of the computed extension: the lowercased text after the
file name last dot, prefixed with a dot. -/
def specExtension (name : String) : String :=
  "." ++ String.mk ((afterLastDot name.toList).map Char.toLower)

/-- A concrete successfully uploaded entry, used as test input. -/
def successEntry : FileEntry :=
  { id := "f1", name := "a.pdf", size := 1, progress := 100, status := .success }

/-- A concrete entry still uploading, used as test input. -/
def uploadingEntry : FileEntry :=
  { id := "f1", name := "a.pdf", size := 1, progress := 20, status := .uploading }

/-- A second concrete entry with a different id, used as test input. -/
def otherEntry : FileEntry :=
  { id := "f2", name := "b.pdf", size := 2, progress := 10, status := .uploading }

/-- A concrete `Document` without a `title` (the `title?` prop is optional
in the dashboard `Document` interface), used as test input. -/
def untitledDocument : Document :=
  { id := "d1"
    title := none
    originalFileName := "report.pdf"
    summary := "short summary"
    fullText := "full text"
    metadata := { tags := [], keyInsights := [], entities := [] }
    highlights := []
    processedDate := "2024-01-01T00:00:00Z" }

/-! ### Lemmas about the extension computation -/

lemma splitOnDot_ne_nil (l : List Char) : splitOnDot l ≠ [] := by
  cases l with
  | nil => simp [splitOnDot]
  | cons ch cs =>
    simp only [splitOnDot]
    split
    · simp
    · split <;> simp

lemma splitOnDot_of_not_mem (l : List Char) (h : '.' ∉ l) : splitOnDot l = [l] := by
  induction l with
  | nil => rfl
  | cons ch cs ih =>
    have hch : ¬ ch = '.' := fun hc => h (by simp [hc])
    have hcs : '.' ∉ cs := fun hc => h (by simp [hc])
    simp only [splitOnDot, if_neg hch, ih hcs]

lemma splitOnDot_two_le_of_mem (l : List Char) (h : '.' ∈ l) :
    2 ≤ (splitOnDot l).length := by
  induction l with
  | nil => simp at h
  | cons ch cs ih =>
    by_cases hch : ch = '.'
    · simp only [splitOnDot, if_pos hch, List.length_cons]
      have := List.length_pos.mpr (splitOnDot_ne_nil cs)
      omega
    · have hcs : '.' ∈ cs := by
        rcases List.mem_cons.mp h with h1 | h1
        · exact absurd h1.symm hch
        · exact h1
      have h2 := ih hcs
      simp only [splitOnDot, if_neg hch]
      rcases hsp : splitOnDot cs with _ | ⟨g, gs⟩
      · exact absurd hsp (splitOnDot_ne_nil cs)
      · rw [hsp] at h2
        simpa using h2

lemma afterLastDot_of_not_mem (l : List Char) (h : '.' ∉ l) : afterLastDot l = l := by
  induction l with
  | nil => rfl
  | cons ch cs ih =>
    have hch : ¬ ch = '.' := fun hc => h (by simp [hc])
    have hcs : '.' ∉ cs := fun hc => h (by simp [hc])
    simp only [afterLastDot, if_neg hcs, if_neg hch, ih hcs]

lemma getLastD_of_ne_nil {α : Type} (l : List α) (a b : α) (h : l ≠ []) :
    l.getLastD a = l.getLastD b := by
  cases l with
  | nil => exact absurd rfl h
  | cons x xs => rw [List.getLastD_cons, List.getLastD_cons]

lemma splitOnDot_getLastD (l : List Char) :
    (splitOnDot l).getLastD [] = afterLastDot l := by
  induction l with
  | nil => rfl
  | cons ch cs ih =>
    by_cases hch : ch = '.'
    · simp only [splitOnDot, if_pos hch, List.getLastD_cons]
      have hne := splitOnDot_ne_nil cs
      rw [getLastD_of_ne_nil _ _ [] hne, ih]
      by_cases hcs : '.' ∈ cs
      · simp only [afterLastDot, if_pos hcs, if_pos hch]
      · simp only [afterLastDot, if_neg hcs, if_pos hch,
          afterLastDot_of_not_mem cs hcs]
    · by_cases hcs : '.' ∈ cs
      · have h2 := splitOnDot_two_le_of_mem cs hcs
        rcases hsp : splitOnDot cs with _ | ⟨g, gs⟩
        · exact absurd hsp (splitOnDot_ne_nil cs)
        · have hgs : gs ≠ [] := by
            rw [hsp] at h2
            simp only [List.length_cons] at h2
            intro hnil
            rw [hnil] at h2
            simp at h2
          simp only [splitOnDot, if_neg hch, hsp, List.getLastD_cons]
          rw [getLastD_of_ne_nil gs (ch :: g) g hgs]
          have : (splitOnDot cs).getLastD [] = gs.getLastD g := by
            rw [hsp, List.getLastD_cons]
          rw [← this, ih]
          simp only [afterLastDot, if_pos hcs, if_neg hch]
      · simp only [splitOnDot, if_neg hch, splitOnDot_of_not_mem cs hcs,
          List.getLastD_cons]
        simp only [afterLastDot, if_neg hcs, if_neg hch]
        rfl

lemma fileExtension_eq_spec (name : String) :
    fileExtension name = specExtension name := by
  unfold fileExtension specExtension
  rw [splitOnDot_getLastD]

/-! ### Lemmas about validation and `processFiles` -/

lemma validateFile_size_err (c : UploaderConfig) (raw : RawFile)
    (h : maxSizeBytes c < raw.size) (len : Nat) :
    validateFile c len raw =
      .err ("File size exceeds " ++ toString c.maxSizeMB ++ "MB limit") := by
  unfold validateFile
  rw [if_pos h]

lemma validateFile_eq_of_size_count (c : UploaderConfig) (len : Nat) (raw : RawFile)
    (hsize : raw.size ≤ maxSizeBytes c) (hcount : len < c.maxFiles) :
    validateFile c len raw =
      if fileExtension raw.name ∈ c.allowedFileTypes then Validation.ok
      else Validation.err ("File type not supported. Allowed types: " ++
        String.intercalate ", " c.allowedFileTypes) := by
  unfold validateFile
  rw [if_neg (Nat.not_lt.mpr hsize)]
  by_cases hm : fileExtension raw.name ∈ c.allowedFileTypes
  · rw [if_neg (not_not_intro hm), if_neg (Nat.not_le.mpr hcount), if_pos hm]
  · rw [if_pos hm, if_neg hm]

lemma validateFile_ok_count (c : UploaderConfig) (len : Nat) (raw : RawFile)
    (h : validateFile c len raw = .ok) : len < c.maxFiles := by
  unfold validateFile at h
  split_ifs at h with h1 h2 h3
  · exact Nat.lt_of_not_le h3

lemma batchAccepted_eq_nil (c : UploaderConfig) (len : Nat)
    (batch : List (String × RawFile))
    (h : ∀ p ∈ batch, validateFile c len p.2 ≠ .ok) :
    batchAccepted c len batch = [] := by
  unfold batchAccepted
  rw [List.filterMap_eq_nil_iff]
  intro p hp
  rcases hval : validateFile c len p.2 with _ | m
  · exact absurd hval (h p hp)
  · rfl

lemma batchAccepted_singleton (c : UploaderConfig) (len : Nat)
    (id : String) (raw : RawFile) :
    batchAccepted c len [(id, raw)] =
      if validateFile c len raw = .ok then
        [{ id := id, name := raw.name, size := raw.size,
           progress := 0, status := .uploading }]
      else [] := by
  unfold batchAccepted
  rcases hval : validateFile c len raw with _ | m
  · simp [hval]
  · simp [hval]

/-- Claim C2: `validateFile` fails the size check exactly when the file
size in bytes strictly exceeds `maxSizeMB * 1024 * 1024`; an oversized file
is reported with `File size exceeds ...MB limit` and `processFiles` does not
add it to the list. -/
theorem size_ceiling (c : UploaderConfig) (len : Nat) (raw : RawFile)
    (hext : fileExtension raw.name ∈ c.allowedFileTypes)
    (hcount : len < c.maxFiles) :
    (validateFile c len raw = .ok ↔ raw.size ≤ maxSizeBytes c) ∧
    (maxSizeBytes c < raw.size →
      validateFile c len raw =
        .err ("File size exceeds " ++ toString c.maxSizeMB ++ "MB limit")) ∧
    (∀ (s : UploaderState) (id : String), maxSizeBytes c < raw.size →
      processFiles c s [(id, raw)] =
        { files := s.files,
          error := some ("File size exceeds " ++ toString c.maxSizeMB ++ "MB limit") }) := by
  refine ⟨?_, ?_, ?_⟩
  · constructor
    · intro h
      by_contra hsz
      have hlt : maxSizeBytes c < raw.size := Nat.lt_of_not_le hsz
      rw [validateFile_size_err c raw hlt len] at h
      exact Validation.noConfusion h
    · intro hsz
      rw [validateFile_eq_of_size_count c len raw hsz hcount, if_pos hext]
  · intro hsz
    exact validateFile_size_err c raw hsz len
  · intro s id hsz
    have hval := validateFile_size_err c raw hsz s.files.length
    unfold processFiles
    rw [batchAccepted_singleton, if_neg (by rw [hval]; exact fun h => Validation.noConfusion h)]
    unfold batchError
    simp [hval]

/-- Witness for C2 at a concrete allowed file of size 1 byte. -/
theorem size_ceiling_witness :
    validateFile defaultConfig 0 { name := "a.pdf", size := 1 } = Validation.ok ↔
      ({ name := "a.pdf", size := 1 } : RawFile).size ≤ maxSizeBytes defaultConfig :=
  (size_ceiling defaultConfig 0 { name := "a.pdf", size := 1 }
    (by decide) (by decide)).1

/-- Claim C3: given the size and count checks pass, `validateFile` accepts a
file exactly when the lowercased text after the file name last dot,
prefixed with a dot, belongs to `allowedFileTypes`; otherwise it reports the
error listing the allowed types; the default allow-list is
`[".pdf", ".docx", ".doc"]`. -/
theorem extension_allowlist (c : UploaderConfig) (len : Nat) (raw : RawFile)
    (hsize : raw.size ≤ maxSizeBytes c) (hcount : len < c.maxFiles) :
    (validateFile c len raw = .ok ↔ specExtension raw.name ∈ c.allowedFileTypes) ∧
    (specExtension raw.name ∉ c.allowedFileTypes →
      validateFile c len raw =
        .err ("File type not supported. Allowed types: " ++
          String.intercalate ", " c.allowedFileTypes)) ∧
    defaultConfig.allowedFileTypes = [".pdf", ".docx", ".doc"] := by
  have hfe : fileExtension raw.name = specExtension raw.name :=
    fileExtension_eq_spec raw.name
  have hval := validateFile_eq_of_size_count c len raw hsize hcount
  rw [hfe] at hval
  refine ⟨?_, ?_, rfl⟩
  · rw [hval]
    by_cases hm : specExtension raw.name ∈ c.allowedFileTypes
    · simp [hm]
    · simp [hm]
  · intro hm
    rw [hval, if_neg hm]

/-- Witness for C3 at a concrete file named `a.PDF` (mixed case). -/
theorem extension_allowlist_witness :
    validateFile defaultConfig 0 { name := "a.PDF", size := 1 } = Validation.ok ↔
      specExtension "a.PDF" ∈ defaultConfig.allowedFileTypes :=
  (extension_allowlist defaultConfig 0 { name := "a.PDF", size := 1 }
    (by decide) (by decide)).1

/-- Claim C6: a highlight importance is one of high, medium, low, and
`getHighlightColor` maps the three levels to distinct emphasis classes:
red for high, yellow for medium, blue for low, with a result for every
input. -/
theorem highlight_colors :
    (∀ h : Highlight, h.importance = Importance.high ∨
      h.importance = Importance.medium ∨ h.importance = Importance.low) ∧
    getHighlightColor Importance.high = "bg-red-100 border-l-4 border-red-500" ∧
    getHighlightColor Importance.medium = "bg-yellow-100 border-l-4 border-yellow-500" ∧
    getHighlightColor Importance.low = "bg-blue-100 border-l-4 border-blue-500" ∧
    getHighlightColor Importance.high ≠ getHighlightColor Importance.medium ∧
    getHighlightColor Importance.high ≠ getHighlightColor Importance.low ∧
    getHighlightColor Importance.medium ≠ getHighlightColor Importance.low := by
  refine ⟨?_, rfl, rfl, rfl, by decide, by decide, by decide⟩
  intro h
  cases hi : h.importance
  · exact Or.inl rfl
  · exact Or.inr (Or.inl rfl)
  · exact Or.inr (Or.inr rfl)

/-- Claim C7: with the `documents` prop omitted, the dashboard uses the two
hard-coded samples (ids `"1"` and `"2"`) and starts on the first sample
id; with a supplied list it uses exactly that list and starts on the first
supplied document id, or `""` for an empty list. -/
theorem dashboard_defaults :
    resultsDashboardInit none = (defaultDocuments, "1") ∧
    defaultDocuments.length = 2 ∧
    (defaultDocuments.map fun d => d.id) = ["1", "2"] ∧
    (∀ (d : Document) (rest : List Document),
      resultsDashboardInit (some (d :: rest)) = (d :: rest, d.id)) ∧
    resultsDashboardInit (some []) = ([], "") :=
  ⟨rfl, rfl, rfl, fun _ _ => rfl, rfl⟩

/-- Claim C1 counterexample: with `maxFiles = 1` and an empty list, one
`processFiles` call offered a batch of two valid files accepts both —
every file in the batch is validated against the list length from before
the call — so the kept list ends with 2 > 1 entries. -/
theorem file_count_counterexample :
    ({ maxFiles := 1, maxSizeMB := 10, allowedFileTypes := [".pdf"] } : UploaderConfig).maxFiles = 1 ∧
    (processFiles { maxFiles := 1, maxSizeMB := 10, allowedFileTypes := [".pdf"] }
        { files := [], error := none }
        [("id1", { name := "a.pdf", size := 100 }),
         ("id2", { name := "b.pdf", size := 100 })]).files.length = 2 := by
  constructor
  · rfl
  · rfl

/-- Claim C1 amended: `processFiles` validates every offered file against
the list length from the start of the call, so: when the list already holds
at least `maxFiles` entries no offered file is added, and a valid-sized,
valid-typed file offered then is rejected with `Maximum ... files allowed`;
batches of at most one file can never push the list past `maxFiles`
(multi-file batches can, as the counterexample shows). -/
theorem file_count_ceiling (c : UploaderConfig) (s : UploaderState) :
    (∀ batch, c.maxFiles ≤ s.files.length →
      (processFiles c s batch).files = s.files) ∧
    (∀ raw : RawFile, raw.size ≤ maxSizeBytes c →
      fileExtension raw.name ∈ c.allowedFileTypes →
      c.maxFiles ≤ s.files.length →
      validateFile c s.files.length raw =
        .err ("Maximum " ++ toString c.maxFiles ++ " files allowed")) ∧
    (∀ x : String × RawFile, s.files.length ≤ c.maxFiles →
      (processFiles c s [x]).files.length ≤ c.maxFiles) := by
  refine ⟨?_, ?_, ?_⟩
  · intro batch hfull
    have hnone : ∀ p ∈ batch, validateFile c s.files.length p.2 ≠ .ok := by
      intro p _ hok
      exact Nat.not_lt.mpr hfull (validateFile_ok_count c s.files.length p.2 hok)
    unfold processFiles
    rw [batchAccepted_eq_nil c s.files.length batch hnone, List.append_nil]
  · intro raw hsize hext hfull
    unfold validateFile
    rw [if_neg (Nat.not_lt.mpr hsize), if_neg (not_not_intro hext), if_pos hfull]
  · intro x hle
    rcases x with ⟨id, raw⟩
    unfold processFiles
    rw [batchAccepted_singleton]
    by_cases hok : validateFile c s.files.length raw = .ok
    · have hlt := validateFile_ok_count c s.files.length raw hok
      rw [if_pos hok]
      simp only [List.length_append, List.length_cons, List.length_nil]
      omega
    · rw [if_neg hok, List.append_nil]
      exact hle

/-- Witness for C1 amended theorem: from an empty list a single valid
file keeps the count within the default `maxFiles = 10`. -/
theorem file_count_ceiling_witness :
    (processFiles defaultConfig { files := [], error := none }
      [("id1", { name := "a.pdf", size := 1 })]).files.length ≤
        defaultConfig.maxFiles :=
  (file_count_ceiling defaultConfig { files := [], error := none }).2.2
    ("id1", { name := "a.pdf", size := 1 }) (by decide)

/-- Claim C9: the Summarize button `onClick` fires `onSummarize` only with
the non-empty list of files whose status is success, and only when the
button is enabled: not while `isProcessing`, not while any file is still
uploading, and not while no file has succeeded. -/
theorem summarize_gating (isProc : Bool) (files : List FileEntry)
    (payload : List FileEntry)
    (h : summarizeClick isProc files = some payload) :
    payload = (files.filter fun f => f.status == Status.success) ∧
    payload ≠ [] ∧
    isProc = false ∧
    (∀ f ∈ files, f.status ≠ Status.uploading) ∧
    (∃ f ∈ files, f.status = Status.success) := by
  unfold summarizeClick at h
  by_cases hd : summarizeDisabled isProc files = true
  · rw [if_pos hd] at h
    exact Option.noConfusion h
  · rw [if_neg hd] at h
    have hdis : summarizeDisabled isProc files = false := Bool.eq_false_iff.mpr hd
    unfold summarizeDisabled at hdis
    simp only [Bool.or_eq_false_iff, List.any_eq_false, beq_iff_eq,
      decide_eq_false_iff_not] at hdis
    obtain ⟨⟨hproc, hup⟩, hsucc⟩ := hdis
    by_cases hlen : 0 < (files.filter fun f => f.status == Status.success).length
    · rw [if_pos hlen] at h
      have hpay : payload = files.filter fun f => f.status == Status.success :=
        (Option.some_injective _ h).symm
      refine ⟨hpay, ?_, hproc, ?_, ?_⟩
      · rw [hpay]
        intro hnil
        rw [hnil] at hlen
        simp at hlen
      · intro f hf hc
        exact hup f hf (by rw [hc])
      · rcases hfil : files.filter (fun f => f.status == Status.success) with _ | ⟨f, fs⟩
        · exact absurd hfil (by intro hc; rw [hc] at hlen; simp at hlen)
        · have hmem : f ∈ files.filter fun f => f.status == Status.success := by
            rw [hfil]; exact List.mem_cons_self f fs
          have hmf := List.mem_filter.mp hmem
          have hst : (f.status == Status.success) = true := hmf.2
          rw [beq_iff_eq] at hst
          exact ⟨f, hmf.1, hst⟩
    · rw [if_neg hlen] at h
      exact Option.noConfusion h

/-- Witness for C9 at a one-file list whose entry has succeeded. -/
theorem summarize_gating_witness :
    summarizeClick false [successEntry] = some [successEntry] ∧
    ([successEntry] : List FileEntry) ≠ [] :=
  ⟨by decide, (summarize_gating false [successEntry] [successEntry] (by decide)).2.1⟩

/-- Claim C10: a `simulateUpload` tick `setFiles` update preserves the
list length and order, leaves every entry with a different id unchanged,
and on the matching entry writes only the tick progress, touching the
status (to success) only when the tick completed. -/
theorem tick_frame (fileId : String) (t : TickResult) (files : List FileEntry)
    (i : Nat) (f : FileEntry) (hf : files[i]? = some f) :
    (applyTick fileId t files).length = files.length ∧
    (f.id ≠ fileId → (applyTick fileId t files)[i]? = some f) ∧
    (f.id = fileId →
      (applyTick fileId t files)[i]? =
        some { f with progress := t.progress,
                      status := if t.completed then Status.success else f.status }) := by
  refine ⟨List.length_map files _, ?_, ?_⟩
  · intro hne
    unfold applyTick
    rw [List.getElem?_map, hf, Option.map_some']
    unfold tickEntry
    rw [if_neg hne]
  · intro heq
    unfold applyTick
    rw [List.getElem?_map, hf, Option.map_some']
    unfold tickEntry
    rw [if_pos heq]
    rcases t with ⟨p, c⟩
    cases c
    · rfl
    · rfl

/-- Witness for C10: a non-final tick for `"f1"` leaves the entry with id
`"f2"` untouched. -/
theorem tick_frame_witness :
    (applyTick "f1" { progress := 50, completed := false }
      [uploadingEntry, otherEntry])[1]? = some otherEntry :=
  (tick_frame "f1" { progress := 50, completed := false }
    [uploadingEntry, otherEntry] 1 otherEntry rfl).2.1 (by decide)

/-! ### Lemmas about the upload simulation -/

lemma uploadTick_le (p d : ℚ) : (uploadTick p d).progress ≤ 100 := by
  unfold uploadTick
  split_ifs with h
  · exact le_refl _
  · exact (not_le.mp h).le

lemma uploadTick_ge (p d : ℚ) (hd : 0 ≤ d) (hp : p ≤ 100) :
    p ≤ (uploadTick p d).progress := by
  unfold uploadTick
  split_ifs with h
  · exact hp
  · exact le_add_of_nonneg_right hd

lemma uploadTick_completed_iff (p d : ℚ) :
    (uploadTick p d).completed = true ↔ (uploadTick p d).progress = 100 := by
  unfold uploadTick
  split_ifs with h
  · exact ⟨fun _ => rfl, fun _ => rfl⟩
  · constructor
    · intro hc
      exact hc.elim
    · intro hp
      exact absurd hp (ne_of_lt (not_le.mp h))

lemma uploadRun_cons (p d : ℚ) (ds : List ℚ) :
    uploadRun p (d :: ds) =
      if (uploadTick p d).completed then [uploadTick p d]
      else uploadTick p d :: uploadRun (uploadTick p d).progress ds := rfl

lemma uploadRun_chain (deltas : List ℚ) : ∀ p : ℚ, p ≤ 100 →
    (∀ d ∈ deltas, 0 ≤ d) →
    List.Chain (fun a b => a ≤ b) p ((uploadRun p deltas).map TickResult.progress) ∧
    ∀ t ∈ uploadRun p deltas, t.progress ≤ 100 := by
  induction deltas with
  | nil =>
    intro p hp _
    exact ⟨List.Chain.nil, by intro t ht; simp [uploadRun] at ht⟩
  | cons d ds ih =>
    intro p hp hd
    have hd0 : 0 ≤ d := hd d (List.mem_cons_self d ds)
    have hds : ∀ x ∈ ds, 0 ≤ x := fun x hx => hd x (List.mem_cons_of_mem d hx)
    rw [uploadRun_cons]
    by_cases hc : (uploadTick p d).completed = true
    · rw [if_pos hc]
      refine ⟨?_, ?_⟩
      · simp only [List.map_cons, List.map_nil]
        exact List.Chain.cons (uploadTick_ge p d hd0 hp) List.Chain.nil
      · intro t ht
        rw [List.mem_singleton] at ht
        rw [ht]
        exact uploadTick_le p d
    · rw [if_neg hc]
      have hple := uploadTick_le p d
      obtain ⟨ihc, ihm⟩ := ih (uploadTick p d).progress hple hds
      refine ⟨?_, ?_⟩
      · simp only [List.map_cons]
        exact List.Chain.cons (uploadTick_ge p d hd0 hp) ihc
      · intro t ht
        rcases List.mem_cons.mp ht with h1 | h1
        · rw [h1]
          exact hple
        · exact ihm t h1

lemma uploadRun_completed_iff (deltas : List ℚ) : ∀ p : ℚ, ∀ t ∈ uploadRun p deltas,
    (t.completed = true ↔ t.progress = 100) := by
  induction deltas with
  | nil =>
    intro p t ht
    simp [uploadRun] at ht
  | cons d ds ih =>
    intro p t ht
    rw [uploadRun_cons] at ht
    by_cases hc : (uploadTick p d).completed = true
    · rw [if_pos hc, List.mem_singleton] at ht
      rw [ht]
      exact uploadTick_completed_iff p d
    · rw [if_neg hc] at ht
      rcases List.mem_cons.mp ht with h1 | h1
      · rw [h1]
        exact uploadTick_completed_iff p d
      · exact ih _ t h1

lemma uploadRun_dropLast (deltas : List ℚ) : ∀ p : ℚ,
    ∀ t ∈ (uploadRun p deltas).dropLast, t.completed = false := by
  induction deltas with
  | nil =>
    intro p t ht
    simp [uploadRun] at ht
  | cons d ds ih =>
    intro p t ht
    rw [uploadRun_cons] at ht
    by_cases hc : (uploadTick p d).completed = true
    · rw [if_pos hc] at ht
      simp at ht
    · rw [if_neg hc] at ht
      rcases hrest : uploadRun (uploadTick p d).progress ds with _ | ⟨r, rs⟩
      · rw [hrest] at ht
        simp at ht
      · rw [hrest, List.dropLast_cons₂] at ht
        rcases List.mem_cons.mp ht with h1 | h1
        · rw [h1]
          exact Bool.eq_false_iff.mpr hc
        · rw [← hrest] at h1
          exact ih _ t h1

/-- Claim C4: over a `simulateUpload` run (random increments are
non-negative) the written progress values are non-decreasing from 0 and
never exceed 100; a tick completes (clears the interval and marks success)
exactly when its progress value is 100; completion only happens at the last
tick of the run; and the tick writes exactly its progress to the file
entry, setting the entry status to success exactly on completion. -/
theorem upload_progress (deltas : List ℚ) (hd : ∀ d ∈ deltas, 0 ≤ d) :
    List.Chain (fun a b => a ≤ b) 0 ((uploadRun 0 deltas).map TickResult.progress) ∧
    (∀ t ∈ uploadRun 0 deltas, t.progress ≤ 100 ∧
      (t.completed = true ↔ t.progress = 100)) ∧
    (∀ t ∈ (uploadRun 0 deltas).dropLast, t.completed = false) ∧
    (∀ (id : String) (t : TickResult) (f : FileEntry), f.id = id →
      f.status = Status.uploading →
      (tickEntry id t f).progress = t.progress ∧
      ((tickEntry id t f).status = Status.success ↔ t.completed = true)) := by
  obtain ⟨hchain, hmem⟩ := uploadRun_chain deltas 0 (by norm_num) hd
  refine ⟨hchain, ?_, uploadRun_dropLast deltas 0, ?_⟩
  · intro t ht
    exact ⟨hmem t ht, uploadRun_completed_iff deltas 0 t ht⟩
  · intro id t f hid hst
    unfold tickEntry
    rw [if_pos hid]
    by_cases hcs : t.completed = true
    · rw [if_pos hcs]
      exact ⟨rfl, by simp [hcs]⟩
    · rw [if_neg hcs]
      refine ⟨rfl, ?_⟩
      rw [show ({ f with progress := t.progress } : FileEntry).status = f.status from rfl,
        hst]
      simp [hcs]

/-- Witness for C4 at the concrete increments 50 and 60. -/
theorem upload_progress_witness :
    List.Chain (fun a b => a ≤ b) 0
      ((uploadRun 0 [50, 60]).map TickResult.progress) :=
  (upload_progress [50, 60] (by decide)).1

/-! ### Lemmas about file statuses -/

lemma batchAccepted_mem (c : UploaderConfig) (len : Nat)
    (batch : List (String × RawFile)) :
    ∀ e ∈ batchAccepted c len batch,
      e.status = Status.uploading ∧ e.progress = 0 := by
  intro e he
  unfold batchAccepted at he
  rcases List.mem_filterMap.mp he with ⟨p, _, hfp⟩
  rcases hval : validateFile c len p.2 with _ | m
  · rw [hval] at hfp
    simp only [Option.some.injEq] at hfp
    rw [← hfp]
    exact ⟨rfl, rfl⟩
  · rw [hval] at hfp
    exact Option.noConfusion hfp

lemma tickEntry_status (id : String) (t : TickResult) (f : FileEntry) :
    (tickEntry id t f).status = f.status ∨
    (tickEntry id t f).status = Status.success := by
  unfold tickEntry
  split_ifs
  · exact Or.inr rfl
  · exact Or.inl rfl
  · exact Or.inl rfl

lemma applyTick_no_error (id : String) (t : TickResult) (files : List FileEntry)
    (h : ∀ f ∈ files, f.status ≠ Status.error) :
    ∀ f' ∈ applyTick id t files, f'.status ≠ Status.error := by
  intro f' hf'
  rcases List.mem_map.mp hf' with ⟨f, hf, hEq⟩
  rcases tickEntry_status id t f with h1 | h1
  · rw [← hEq, h1]
    exact h f hf
  · rw [← hEq, h1]
    exact fun hc => Status.noConfusion hc

lemma foldlTicks_no_error (ts : List TickResult) : ∀ (id : String)
    (files : List FileEntry), (∀ f ∈ files, f.status ≠ Status.error) →
    ∀ f' ∈ ts.foldl (fun fs t => applyTick id t fs) files,
      f'.status ≠ Status.error := by
  induction ts with
  | nil =>
    intro id files h f' hf'
    exact h f' hf'
  | cons t ts ih =>
    intro id files h f' hf'
    exact ih id (applyTick id t files) (applyTick_no_error id t files h) f' hf'

/-- Claim C5 counterexample: the `"error"` outcome is not a reachable
transition of the interval-driven simulation — no file accepted by
`processFiles`, after any run of `simulateUpload` ticks, ever has status
`"error"` (nothing in the code sets that status). -/
theorem error_status_unreachable :
    ¬ ∃ (id : String) (p : ℚ) (deltas : List ℚ) (c : UploaderConfig)
        (len : Nat) (batch : List (String × RawFile)) (e : FileEntry),
      e ∈ runTicks id p deltas (batchAccepted c len batch) ∧
      e.status = Status.error := by
  rintro ⟨id, p, deltas, c, len, batch, e, he, hs⟩
  have hinit : ∀ f ∈ batchAccepted c len batch, f.status ≠ Status.error := by
    intro f hf
    rw [(batchAccepted_mem c len batch f hf).1]
    exact fun hc => Status.noConfusion hc
  unfold runTicks at he
  exact foldlTicks_no_error (uploadRun p deltas) id
    (batchAccepted c len batch) hinit e he hs

/-- Claim C5 amended: every file enters the list with status `"uploading"`;
the only status change any operation performs on a file that is not in the
(unreachable) `"error"` status is `"uploading" → "success"`, on the
completing tick of its own id; a file never leaves `"success"`; no
operation ever sets `"error"`; and the `"success"` outcome is reached by a
concrete run of the simulation. -/
theorem status_machine :
    (∀ (c : UploaderConfig) (len : Nat) (batch : List (String × RawFile)),
      ∀ e ∈ batchAccepted c len batch, e.status = Status.uploading) ∧
    (∀ (id : String) (t : TickResult) (f : FileEntry),
      f.status ≠ Status.error → (tickEntry id t f).status ≠ f.status →
      f.status = Status.uploading ∧ (tickEntry id t f).status = Status.success ∧
      f.id = id ∧ t.completed = true) ∧
    (∀ (id : String) (t : TickResult) (f : FileEntry),
      f.status = Status.success → (tickEntry id t f).status = Status.success) ∧
    (∀ (id : String) (t : TickResult) (f : FileEntry),
      f.status ≠ Status.error → (tickEntry id t f).status ≠ Status.error) ∧
    runTicks "f1" 0 [100] [uploadingEntry] =
      [{ id := "f1", name := "a.pdf", size := 1, progress := 100,
         status := Status.success }] := by
  refine ⟨?_, ?_, ?_, ?_, ?_⟩
  · exact fun c len batch e he => (batchAccepted_mem c len batch e he).1
  · intro id t f hne hch
    rcases f with ⟨fid, fn, fsz, fp, fst⟩
    unfold tickEntry at hch ⊢
    by_cases hid : fid = id
    · rw [if_pos hid] at hch ⊢
      by_cases hc : t.completed = true
      · rw [if_pos hc] at hch ⊢
        have hch' : Status.success ≠ fst := hch
        cases fst with
        | uploading => exact ⟨rfl, rfl, hid, hc⟩
        | success => exact absurd rfl hch'
        | error => exact absurd rfl hne
      · rw [if_neg hc] at hch ⊢
        exact absurd rfl hch
    · rw [if_neg hid] at hch ⊢
      exact absurd rfl hch
  · intro id t f hs
    unfold tickEntry
    split_ifs
    · rfl
    · exact hs
    · exact hs
  · intro id t f hne
    unfold tickEntry
    split_ifs
    · exact fun hc => Status.noConfusion hc
    · exact hne
    · exact hne
  · have h1 : uploadTick (0 : ℚ) 100 = { progress := 100, completed := true } := by
      unfold uploadTick
      rw [if_pos (by norm_num)]
    unfold runTicks
    rw [uploadRun_cons, h1]
    decide

/-- Witness for C5 amended theorem: a completing tick keeps a succeeded
entry at `"success"`. -/
theorem status_machine_witness :
    (tickEntry "f1" { progress := 100, completed := true } successEntry).status =
      Status.success :=
  status_machine.2.2.1 "f1" { progress := 100, completed := true } successEntry rfl

/-- Claim C8 counterexample: the dashboard `Document` interface leaves
`title` optional, so a document without a title is a `Document` the
dashboard handles (it becomes the active document and its heading falls
back to the file name). -/
theorem document_title_counterexample :
    untitledDocument.title = none ∧
    resultsDashboardInit (some [untitledDocument]) = ([untitledDocument], "d1") ∧
    displayTitle untitledDocument = "report.pdf" :=
  ⟨rfl, rfl, rfl⟩

/-- Claim C8 amended: every `Document` comprises exactly id, an optional
title, file name, summary text, full text, a highlight list, a processed
date, and metadata comprising tags, entities and key insights; a missing
(or empty) title falls back to the file name for display, and both
hard-coded samples do carry titles. -/
theorem document_shape :
    (∀ d : Document, d.title = none → displayTitle d = d.originalFileName) ∧
    (∀ (d : Document) (t : String), d.title = some t → t ≠ "" →
      displayTitle d = t) ∧
    (∀ d ∈ defaultDocuments, d.title.isSome = true) ∧
    (∀ d : Document,
      d = { id := d.id, title := d.title,
            originalFileName := d.originalFileName, summary := d.summary,
            fullText := d.fullText,
            metadata := { tags := d.metadata.tags,
                          keyInsights := d.metadata.keyInsights,
                          entities := d.metadata.entities },
            highlights := d.highlights, processedDate := d.processedDate }) := by
  refine ⟨?_, ?_, ?_, ?_⟩
  · intro d h
    unfold displayTitle
    rw [h]
  · intro d t h ht
    unfold displayTitle
    rw [h]
    show (if t = "" then d.originalFileName else t) = t
    rw [if_neg ht]
  · intro d hd
    rcases List.mem_cons.mp hd with h | h
    · rw [h]
      rfl
    · rcases List.mem_cons.mp h with h1 | h1
      · rw [h1]
        rfl
      · simp at h1
  · intro d
    rfl

/-- Witness for C8 amended theorem at the concrete untitled document. -/
theorem document_shape_witness :
    displayTitle untitledDocument = untitledDocument.originalFileName :=
  document_shape.1 untitledDocument rfl

end SummarizeDoc
